import Mathlib

/-!
# Verification of the point-cloud training/evaluation orchestrator (`main.py`)

Shallow embedding of the training script: model selection (`select_model`),
the label-smoothed loss (`calculate_loss`), the data-loader batching contract,
the epoch runner (training/validation pass), the training orchestrator
(`train`) with its best-model tracking and checkpointing, the evaluator
(`test`), and the cosine-annealing learning-rate schedule.

Numeric values carried by the orchestrator (losses, accuracies) are embedded
as exact rationals; the loss formula itself, which involves `log`/`exp`, is
embedded over the reals.
-/

set_option autoImplicit false

namespace PAN

/-! ## Model selection (`select_model`, main.py lines 28-36) -/

/-- The four architectures the script can instantiate. -/
inductive ModelArch : Type
  | PointNet
  | PointAttentionNet
  | AttentionDGCNN
  | DGCNN
deriving DecidableEq, Repr

/-- `select_model(params)`: dispatch on `params.model`; any unrecognized
name falls through to the final `else` branch, which builds a `DGCNN`. -/
def select_model (model : String) : ModelArch :=
  if model = "PointNet" then ModelArch.PointNet
  else if model = "PointAttentionNet" then ModelArch.PointAttentionNet
  else if model = "AttentionDGCNN" then ModelArch.AttentionDGCNN
  else ModelArch.DGCNN

/-! ## Label-smoothed loss (`calculate_loss`, main.py lines 38-55)

Logits are a `batch × classes` real matrix, gold labels a vector of class
indices.  Line 48 groups as `(one_hot * (1 - eps)) + (((1 - one_hot) * eps)
/ (n_class - 1))`: the division is a float tensor divided by a Python int
(`Tensor.__truediv__`), which under IEEE-754 semantics never raises — a
zero divisor yields a non-finite elementwise result (NaN for a zero
numerator, ±infinity otherwise) that then propagates through the product,
sums and mean. Scalars are therefore embedded as exact reals extended with
a single non-finite element absorbed by every arithmetic step used here. -/

/-- A float value: an exact real, or a non-finite IEEE value (NaN or
±infinity). -/
inductive FloatVal : Type
  | finite : ℝ → FloatVal
  | nonfinite : FloatVal

/-- Whether a float value is finite. -/
def FloatVal.isFinite : FloatVal → Bool
  | .finite _ => true
  | .nonfinite => false

/-- The real carried by a finite float value (0 on the non-finite one). -/
noncomputable def FloatVal.val : FloatVal → ℝ
  | .finite x => x
  | .nonfinite => 0

/-- Float-tensor entry divided by a Python int: a zero divisor yields a
non-finite result (NaN when the numerator is zero, ±infinity otherwise)
instead of raising. -/
noncomputable def fdiv_int (x : ℝ) (d : ℤ) : FloatVal :=
  if d = 0 then FloatVal.nonfinite else FloatVal.finite (x / (d : ℝ))

/-- Real plus float value; NaN and ±infinity absorb addition with a
finite term. -/
noncomputable def fadd (a : ℝ) : FloatVal → FloatVal
  | .finite b => .finite (a + b)
  | .nonfinite => .nonfinite

/-- Float value times real; a NaN factor gives NaN and an infinite factor
gives NaN or ±infinity, so non-finiteness is absorbed. -/
noncomputable def fmul : FloatVal → ℝ → FloatVal
  | .finite a, b => .finite (a * b)
  | .nonfinite, _ => .nonfinite

/-- Tensor sum: finite when every summand is, otherwise non-finite (NaN
propagates through addition, and infinities sum to NaN or ±infinity). -/
noncomputable def fsum {n : ℕ} (f : Fin n → FloatVal) : FloatVal :=
  if ∀ i, (f i).isFinite = true then FloatVal.finite (∑ i, (f i).val)
  else FloatVal.nonfinite

/-- The `-( · ).mean()` step over a batch of `b` row sums. -/
noncomputable def fneg_mean : FloatVal → ℕ → FloatVal
  | .finite s, b => .finite (-(s / (b : ℝ)))
  | .nonfinite, _ => .nonfinite

/-- The smoothing constant `eps = 0.2` from the source. -/
noncomputable def eps : ℝ := 0.2

/-- `F.log_softmax(pred, dim=1)` applied to one row: the log of the
softmax probability of class `j`. -/
noncomputable def log_softmax {c : ℕ} (row : Fin c → ℝ) (j : Fin c) : ℝ :=
  Real.log (Real.exp (row j) / ∑ k, Real.exp (row k))

/-- The smoothed target built at line 48:
`one_hot * (1 - eps) + (1 - one_hot) * eps / (n_class - 1)`, grouped as
Python does — the second summand divides the float tensor
`(1 - one_hot) * eps` by the int `n_class - 1` — with `one_hot` the 0/1
indicator produced by `scatter`. -/
noncomputable def smooth_one_hot (c : ℕ) (g : Fin c) (j : Fin c) : FloatVal :=
  fadd ((if j = g then (1 : ℝ) else 0) * (1 - eps))
    (fdiv_int ((1 - (if j = g then (1 : ℝ) else 0)) * eps) ((c : ℤ) - 1))

/-- `calculate_loss(pred, gold, smoothing)` (main.py lines 38-55).
With smoothing: `loss = -(one_hot * log_prb).sum(dim=1).mean()`, where the
smoothed `one_hot` entries may be non-finite (single-class input) and then
stay non-finite through product, sums and mean; the function always
returns a value. Without smoothing: mean cross entropy. -/
noncomputable def calculate_loss (smoothing : Bool) (b c : ℕ)
    (pred : Fin b → Fin c → ℝ) (gold : Fin b → Fin c) : FloatVal :=
  if smoothing then
    fneg_mean
      (fsum fun i => fsum fun j =>
        fmul (smooth_one_hot c (gold i) j) (log_softmax (pred i) j)) b
  else
    FloatVal.finite ((∑ i, -(log_softmax (pred i) (gold i))) / (b : ℝ))

/-- Modelled from the spec: the soft target distribution — mass `1 - eps`
on the gold class, `eps / (classes - 1)` on each other class. -/
noncomputable def spec_soft_target (c : ℕ) (g : Fin c) (j : Fin c) : ℝ :=
  if j = g then 1 - eps else eps / ((c : ℝ) - 1)

/-- Modelled from the spec: mean over the batch of the negative dot product
between the soft target and the log-softmax of the logits. -/
noncomputable def spec_smooth_loss (b c : ℕ)
    (pred : Fin b → Fin c → ℝ) (gold : Fin b → Fin c) : ℝ :=
  (∑ i, -(∑ j, spec_soft_target c (gold i) j * log_softmax (pred i) j)) / (b : ℝ)

/-! ## Cosine-annealing schedule (main.py line 78)

`CosineAnnealingLR(opt, args.epochs, eta_min=args.lr)`: the closed-form
annealed rate at epoch `t` is
`eta_min + (base_lr - eta_min) * (1 + cos(t * pi / T_max)) / 2`,
where `base_lr` is the optimizer's configured rate `args.lr`. -/

/-- Closed-form cosine-annealing learning rate. -/
noncomputable def cosine_annealing_lr (base_lr eta_min : ℝ) (T_max t : ℕ) : ℝ :=
  eta_min + (base_lr - eta_min) * (1 + Real.cos ((t : ℝ) * Real.pi / (T_max : ℝ))) / 2

/-- The schedule the script constructs: both the optimizer's base rate and
`eta_min` are `args.lr`; `T_max` is `args.epochs`. -/
noncomputable def scheduler_lr (lr : ℝ) (epochs t : ℕ) : ℝ :=
  cosine_annealing_lr lr lr epochs t

/-! ## Data-loader batching (main.py lines 59-62, 172-173)

`DataLoader(..., batch_size=bs, drop_last=d)` delivers the (possibly
shuffled) sample sequence in consecutive groups of `bs`; with
`drop_last=True` a final group shorter than `bs` is not delivered, with
`drop_last=False` it is. The training loader uses `drop_last=True`
(line 60), the validation loader `drop_last=False` (line 62), and the test
loader `drop_last=False` (line 173). -/

/-- Consecutive chunks of size `bs`, keeping a final partial chunk. -/
def chunks {α : Type} (bs : ℕ) (xs : List α) : List (List α) :=
  if h : bs = 0 ∨ xs.length = 0 then []
  else xs.take bs :: chunks bs (xs.drop bs)
termination_by xs.length
decreasing_by
  push_neg at h
  simp only [List.length_drop]
  exact Nat.sub_lt (Nat.pos_of_ne_zero h.2) (Nat.pos_of_ne_zero h.1)

/-- Consecutive chunks of size `bs`, emitting a chunk only while `bs`
samples remain: a final partial chunk is dropped. -/
def chunks_dropLast {α : Type} (bs : ℕ) (xs : List α) : List (List α) :=
  if h : bs = 0 ∨ xs.length < bs then []
  else xs.take bs :: chunks_dropLast bs (xs.drop bs)
termination_by xs.length
decreasing_by
  push_neg at h
  simp only [List.length_drop]
  exact Nat.sub_lt (Nat.lt_of_lt_of_le (Nat.pos_of_ne_zero h.1) h.2)
    (Nat.pos_of_ne_zero h.1)

/-- The batch sequence a `DataLoader` delivers. -/
def batches {α : Type} (bs : ℕ) (drop_last : Bool) (xs : List α) : List (List α) :=
  if drop_last then chunks_dropLast bs xs else chunks bs xs

theorem chunks_nil {α : Type} (bs : ℕ) : chunks bs ([] : List α) = [] := by
  rw [chunks]
  simp

theorem chunks_cons {α : Type} (bs : ℕ) (hbs : bs ≠ 0) (xs : List α) (hx : xs ≠ []) :
    chunks bs xs = xs.take bs :: chunks bs (xs.drop bs) := by
  rw [chunks]
  simp [hbs, List.length_eq_zero, hx]

theorem chunks_dropLast_short {α : Type} (bs : ℕ) (xs : List α)
    (h : bs = 0 ∨ xs.length < bs) : chunks_dropLast bs xs = [] := by
  rw [chunks_dropLast]
  simp [h]

theorem chunks_dropLast_cons {α : Type} (bs : ℕ) (hbs : bs ≠ 0) (xs : List α)
    (hx : bs ≤ xs.length) :
    chunks_dropLast bs xs = xs.take bs :: chunks_dropLast bs (xs.drop bs) := by
  rw [chunks_dropLast]
  simp [hbs, Nat.not_lt.mpr hx]

theorem chunks_flatten_aux {α : Type} (bs : ℕ) (hbs : bs ≠ 0) :
    ∀ (n : ℕ) (xs : List α), xs.length ≤ n → (chunks bs xs).flatten = xs := by
  intro n
  induction n with
  | zero =>
    intro xs h
    have hx : xs = [] := List.eq_nil_of_length_eq_zero (Nat.le_zero.mp h)
    rw [hx, chunks_nil, List.flatten_nil]
  | succ n ih =>
    intro xs h
    by_cases hx : xs = []
    · rw [hx, chunks_nil, List.flatten_nil]
    · rw [chunks_cons bs hbs xs hx, List.flatten_cons,
        ih (xs.drop bs) ?hlen, List.take_append_drop]
      case hlen =>
        simp only [List.length_drop]
        omega

/-- A loader that keeps the last partial batch delivers every sample. -/
theorem chunks_flatten {α : Type} (bs : ℕ) (hbs : bs ≠ 0) (xs : List α) :
    (chunks bs xs).flatten = xs :=
  chunks_flatten_aux bs hbs xs.length xs (Nat.le_refl _)

theorem chunks_dropLast_flatten_aux {α : Type} (bs : ℕ) (hbs : bs ≠ 0) :
    ∀ (n : ℕ) (xs : List α), xs.length ≤ n →
      (chunks_dropLast bs xs).flatten = xs.take (bs * (xs.length / bs)) := by
  intro n
  induction n with
  | zero =>
    intro xs h
    have hx : xs = [] := List.eq_nil_of_length_eq_zero (Nat.le_zero.mp h)
    subst hx
    rw [chunks_dropLast_short bs _ (Or.inr (by simpa using Nat.pos_of_ne_zero hbs))]
    simp
  | succ n ih =>
    intro xs h
    by_cases hx : xs.length < bs
    · rw [chunks_dropLast_short bs xs (Or.inr hx)]
      rw [Nat.div_eq_of_lt hx]
      simp
    · have hle : bs ≤ xs.length := Nat.not_lt.mp hx
      rw [chunks_dropLast_cons bs hbs xs hle, List.flatten_cons,
        ih (xs.drop bs) ?hlen]
      case hlen =>
        simp only [List.length_drop]
        omega
      rw [List.length_drop]
      rw [Nat.div_eq_sub_div (Nat.pos_of_ne_zero hbs) hle]
      rw [Nat.mul_add, Nat.mul_one, Nat.add_comm (bs * ((xs.length - bs) / bs)) bs,
        List.take_add]

/-- A loader that drops the last partial batch delivers exactly the first
`bs * (n / bs)` samples. -/
theorem chunks_dropLast_flatten {α : Type} (bs : ℕ) (hbs : bs ≠ 0) (xs : List α) :
    (chunks_dropLast bs xs).flatten = xs.take (bs * (xs.length / bs)) :=
  chunks_dropLast_flatten_aux bs hbs xs.length xs (Nat.le_refl _)

theorem chunks_dropLast_sizes_aux {α : Type} (bs : ℕ) (hbs : bs ≠ 0) :
    ∀ (n : ℕ) (xs : List α), xs.length ≤ n →
      ∀ l ∈ chunks_dropLast bs xs, l.length = bs := by
  intro n
  induction n with
  | zero =>
    intro xs h l hl
    have hx : xs = [] := List.eq_nil_of_length_eq_zero (Nat.le_zero.mp h)
    subst hx
    rw [chunks_dropLast_short bs _ (Or.inr (by simpa using Nat.pos_of_ne_zero hbs))] at hl
    exact absurd hl (List.not_mem_nil l)
  | succ n ih =>
    intro xs h l hl
    by_cases hx : xs.length < bs
    · rw [chunks_dropLast_short bs xs (Or.inr hx)] at hl
      exact absurd hl (List.not_mem_nil l)
    · have hle : bs ≤ xs.length := Nat.not_lt.mp hx
      rw [chunks_dropLast_cons bs hbs xs hle] at hl
      rcases List.mem_cons.mp hl with h1 | h2
      · rw [h1, List.length_take]
        exact Nat.min_eq_left hle
      · refine ih (xs.drop bs) ?_ l h2
        simp only [List.length_drop]
        omega

/-- Every batch a `drop_last` loader delivers is full. -/
theorem chunks_dropLast_sizes {α : Type} (bs : ℕ) (hbs : bs ≠ 0) (xs : List α) :
    ∀ l ∈ chunks_dropLast bs xs, l.length = bs :=
  chunks_dropLast_sizes_aux bs hbs xs.length xs (Nat.le_refl _)

/-! ## Epoch runner (main.py lines 88-119 and 128-149)

One iteration of the batch loop produces: the batch size (`data.size()[0]`),
the scalar loss (`loss.item()`, embedded as an exact rational), and the
per-batch predicted/true label sequences. The forward pass and the argmax
over logits are collaborators, so a batch is embedded by its observable
result. The loop accumulates `loss * batch_size` into `train_loss`,
`batch_size` into `count`, appends labels/preds, and — in dry-run mode —
breaks after the first batch (lines 114-115). -/

/-- Observable outcome of one batch: its size, the scalar loss, and the
true/predicted label lists appended by the loop body. -/
structure BatchResult : Type where
  size : ℕ
  loss : ℚ
  labels : List ℕ
  preds : List ℕ
deriving DecidableEq, Repr

/-- Accumulator of the batch loop: `(train_loss, count, true-lists, pred-lists)`. -/
def pass_accum (dry : Bool) :
    ℚ × ℕ × List (List ℕ) × List (List ℕ) → List BatchResult →
      ℚ × ℕ × List (List ℕ) × List (List ℕ)
  | acc, [] => acc
  | (l, c, ts, ps), b :: rest =>
    let acc' := (l + b.loss * (b.size : ℚ), c + b.size, ts ++ [b.labels], ps ++ [b.preds])
    if dry then acc' else pass_accum dry acc' rest

/-- One full pass (training when `dry` can be set, validation with
`dry = false`): returns `(total_loss / count, concatenated trues,
concatenated preds)` as at line 119 / lines 148-149. -/
def run_pass (dry : Bool) (bs : List BatchResult) : ℚ × List ℕ × List ℕ :=
  match pass_accum dry (0, 0, [], []) bs with
  | (l, c, ts, ps) => (l / (c : ℚ), ts.flatten, ps.flatten)

/-- Number of batches the loop body executes. -/
def processed_batches (dry : Bool) (bs : List BatchResult) : ℕ :=
  if dry then min 1 bs.length else bs.length

/-! ## Training orchestrator (`train`, main.py lines 58-169)

Per epoch the orchestrator consumes: the training batches, the validation
batches, and the two sklearn accuracy scores of the validation pass (the
metric functions are external collaborators, so their per-epoch values are
inputs). The orchestrator state is the best triple
`(global_best_loss, global_best_acc, global_best_avg_acc)` (line 84);
observable per-epoch events are the batch count, whether validation ran,
whether the rolling checkpoint was saved (line 163), and whether the best
checkpoint was saved (lines 164-166). -/

/-- Inputs one epoch consumes. -/
structure EpochInput : Type where
  trainBatches : List BatchResult
  valBatches : List BatchResult
  val_acc : ℚ
  val_avg_acc : ℚ

/-- The `(global_best_loss, global_best_acc, global_best_avg_acc)` triple. -/
structure BestState : Type where
  loss : ℚ
  acc : ℚ
  avg_acc : ℚ
deriving DecidableEq, Repr

/-- Observable events of one epoch iteration. -/
structure EpochEvent : Type where
  trainedBatches : ℕ
  validated : Bool
  savedCheckpoint : Bool
  savedBest : Bool
deriving DecidableEq, Repr

/-- The body of one `for epoch in range(args.epochs)` iteration: run the
training pass; in dry-run mode `break` immediately after it (lines
121-123); otherwise run validation, save the rolling checkpoint
unconditionally (line 163), and overwrite the best state and best
checkpoint only when `avg_per_class_acc > global_best_avg_acc` (lines
164-166). Returns the new best state, the epoch's events, and whether the
loop continues. -/
def epoch_body (dry : Bool) (inp : EpochInput) (best : BestState) :
    BestState × EpochEvent × Bool :=
  let trained := processed_batches dry inp.trainBatches
  if dry then (best, ⟨trained, false, false, false⟩, false)
  else
    let val := run_pass false inp.valBatches
    let improved : Bool := decide (inp.val_avg_acc > best.avg_acc)
    let best' := if improved then BestState.mk val.1 inp.val_acc inp.val_avg_acc else best
    (best', ⟨trained, true, true, improved⟩, true)

/-- The epoch loop, carrying the epoch index, remaining epochs, best state
and event log; a `break` stops it early. -/
def train_loop (dry : Bool) (inputs : ℕ → EpochInput) :
    ℕ → ℕ → BestState → List EpochEvent → BestState × List EpochEvent
  | _, 0, best, evs => (best, evs)
  | e, r + 1, best, evs =>
    let res := epoch_body dry (inputs e) best
    if res.2.2 then train_loop dry inputs (e + 1) r res.1 (evs ++ [res.2.1])
    else (res.1, evs ++ [res.2.1])

/-- `train(args)`: best state starts at the all-zero sentinel (line 84) and
the loop runs over `range(args.epochs)`. -/
def train (dry : Bool) (epochs : ℕ) (inputs : ℕ → EpochInput) :
    BestState × List EpochEvent :=
  train_loop dry inputs 0 epochs ⟨0, 0, 0⟩ []

/-- The best state held after `e` non-dry epochs. -/
def bestAfter (inputs : ℕ → EpochInput) : ℕ → BestState
  | 0 => ⟨0, 0, 0⟩
  | e + 1 => (epoch_body false (inputs e) (bestAfter inputs e)).1

/-! ## Evaluator (`test`, main.py lines 171-206)

The test loader keeps the partial batch (line 173). Weights come either
from the explicit `state_dict` argument or, when it is `None`, from the
best-model slot (lines 179-182); which weights were loaded determines the
predictions, so prediction is a collaborator parametrized by the override.
The summary line is logged only when `state_dict == None` (lines 202-204),
and `(test_acc, avg_per_class_acc)` is returned in both modes (line 206). -/

/-- Observable outcome of `test`. -/
structure TestOutcome : Type where
  test_acc : ℚ
  avg_per_class_acc : ℚ
  logged : Bool
deriving DecidableEq, Repr

/-- `test(args, state_dict)`: iterate the test loader (no batch dropping),
concatenate true and predicted labels, score them with the two sklearn
metrics, log the summary only in default mode, return the metric pair. -/
def test {α : Type} (state_dict : Option String) (tbs : ℕ) (samples : List α)
    (label : α → ℕ) (predict : Option String → α → ℕ)
    (accuracy_score balanced_accuracy_score : List ℕ → List ℕ → ℚ) :
    TestOutcome :=
  let loader := batches tbs false samples
  let test_true := (loader.map (fun b => b.map label)).flatten
  let test_pred := (loader.map (fun b => b.map (predict state_dict))).flatten
  { test_acc := accuracy_score test_true test_pred
    avg_per_class_acc := balanced_accuracy_score test_true test_pred
    logged := state_dict.isNone }

/-! ## Helper lemmas -/

theorem fmul_finite (a : ℝ) (b : ℝ) :
    fmul (FloatVal.finite a) b = FloatVal.finite (a * b) := rfl

theorem fneg_mean_finite (s : ℝ) (b : ℕ) :
    fneg_mean (FloatVal.finite s) b = FloatVal.finite (-(s / (b : ℝ))) := rfl

theorem fsum_finite {n : ℕ} (g : Fin n → ℝ) :
    fsum (fun i => FloatVal.finite (g i)) = FloatVal.finite (∑ i, g i) := by
  unfold fsum
  rw [if_pos]
  · rfl
  · intro i
    rfl

theorem fsum_nonfinite {n : ℕ} (f : Fin n → FloatVal) (i₀ : Fin n)
    (h : f i₀ = FloatVal.nonfinite) : fsum f = FloatVal.nonfinite := by
  unfold fsum
  rw [if_neg]
  intro hall
  have := hall i₀
  rw [h] at this
  exact Bool.false_ne_true this

theorem smooth_one_hot_finite (c : ℕ) (hc : 2 ≤ c) (g j : Fin c) :
    smooth_one_hot c g j = FloatVal.finite (spec_soft_target c g j) := by
  have hc' : ((c : ℤ) - 1) ≠ 0 := by
    have : (2 : ℤ) ≤ (c : ℤ) := by exact_mod_cast hc
    omega
  unfold smooth_one_hot spec_soft_target fdiv_int
  rw [if_neg hc']
  unfold fadd
  split_ifs <;> push_cast <;> ring_nf

theorem smooth_one_hot_one_class (g j : Fin 1) :
    smooth_one_hot 1 g j = FloatVal.nonfinite := by
  unfold smooth_one_hot fdiv_int
  norm_num
  rfl

/-- Shared evaluation of the single-class smoothing loss: the smoothing
division by the int `0` makes every target entry non-finite, and that
non-finiteness survives the product, both sums and the mean, so the
function returns a non-finite (NaN) loss for every non-empty batch. -/
theorem calculate_loss_one_class (b : ℕ) (hb : b ≠ 0)
    (pred : Fin b → Fin 1 → ℝ) (gold : Fin b → Fin 1) :
    calculate_loss true b 1 pred gold = FloatVal.nonfinite := by
  have hin : ∀ i : Fin b,
      fsum (fun j : Fin 1 =>
        fmul (smooth_one_hot 1 (gold i) j) (log_softmax (pred i) j))
        = FloatVal.nonfinite := by
    intro i
    apply fsum_nonfinite _ (0 : Fin 1)
    rw [smooth_one_hot_one_class]
    rfl
  unfold calculate_loss
  rw [if_pos rfl, fsum_nonfinite _ ⟨0, Nat.pos_of_ne_zero hb⟩ (hin _)]
  rfl

/-! ## Claim theorems -/

/-- Claim C10: the schedule is constructed with `eta_min` equal to the
optimizer's configured rate, so the cosine-annealing formula yields the
configured rate at every epoch — the schedule never changes the rate. -/
theorem c10_scheduler_is_constant (lr : ℝ) (epochs t : ℕ) :
    scheduler_lr lr epochs t = lr := by
  unfold scheduler_lr cosine_annealing_lr
  ring

/-- Claim C7: model selection is a fixed mapping from the configured name
to a constructor; the three recognized names map to their architectures and
every other name falls back to DGCNN. -/
theorem c7_select_model_dispatch :
    select_model "PointNet" = ModelArch.PointNet ∧
    select_model "PointAttentionNet" = ModelArch.PointAttentionNet ∧
    select_model "AttentionDGCNN" = ModelArch.AttentionDGCNN ∧
    ∀ s : String, s ≠ "PointNet" → s ≠ "PointAttentionNet" →
      s ≠ "AttentionDGCNN" → select_model s = ModelArch.DGCNN := by
  refine ⟨by simp [select_model], by simp [select_model], by simp [select_model], ?_⟩
  intro s h1 h2 h3
  simp [select_model, h1, h2, h3]

theorem c7_select_model_dispatch_witness :
    ("MLP" ≠ "PointNet" ∧ "MLP" ≠ "PointAttentionNet" ∧ "MLP" ≠ "AttentionDGCNN")
    ∧ select_model "MLP" = ModelArch.DGCNN :=
  ⟨⟨by decide, by decide, by decide⟩,
    c7_select_model_dispatch.2.2.2 "MLP" (by decide) (by decide) (by decide)⟩

/-- Claim C8 (counterexample): at the concrete single-class input the loss
function returns a value — the non-finite NaN loss produced by the IEEE
division of the zero float tensor by the int `0` — rather than failing
fast with a division-by-zero error. -/
theorem c8_one_class_counterexample :
    calculate_loss true 1 1 (fun _ _ => 0) (fun _ => 0) = FloatVal.nonfinite :=
  calculate_loss_one_class 1 one_ne_zero (fun _ _ => 0) (fun _ => 0)

/-- Claim C8 (amended): with smoothing enabled and exactly one class, the
loss function does not raise: the smoothing term divides the zero float
tensor by the integer zero, producing NaN under IEEE tensor semantics, and
on every non-empty batch the function returns that non-finite loss
value. -/
theorem c8_one_class_returns_nan (b : ℕ)
    (pred : Fin (b + 1) → Fin 1 → ℝ) (gold : Fin (b + 1) → Fin 1) :
    calculate_loss true (b + 1) 1 pred gold = FloatVal.nonfinite :=
  calculate_loss_one_class (b + 1) (Nat.succ_ne_zero b) pred gold

/-- Claim C2: for every `batch × classes` logits matrix with at least two
classes and every gold-label vector, the smoothing loss equals the mean
over the batch of the negative dot product between the soft target
distribution (mass `1 - eps` on the gold class, `eps / (classes - 1)`
elsewhere, `eps = 0.2`) and the log-softmax of the logits. -/
theorem c2_smooth_loss_is_spec_formula (b c : ℕ) (hc : 2 ≤ c)
    (pred : Fin b → Fin c → ℝ) (gold : Fin b → Fin c) :
    calculate_loss true b c pred gold
      = FloatVal.finite (spec_smooth_loss b c pred gold) := by
  unfold calculate_loss spec_smooth_loss
  rw [if_pos rfl]
  simp only [smooth_one_hot_finite c hc, fmul_finite, fsum_finite, fneg_mean_finite]
  congr 1
  rw [← neg_div]
  congr 1
  exact Finset.sum_neg_distrib.symm

theorem c2_smooth_loss_is_spec_formula_witness :
    2 ≤ 2 ∧
    calculate_loss true 1 2 (fun _ _ => 0) (fun _ => 0)
      = FloatVal.finite (spec_smooth_loss 1 2 (fun _ _ => 0) (fun _ => 0)) :=
  ⟨by decide, c2_smooth_loss_is_spec_formula 1 2 (by decide) (fun _ _ => 0) (fun _ => 0)⟩

theorem pass_accum_false_spec :
    ∀ (bs : List BatchResult) (l : ℚ) (c : ℕ) (ts ps : List (List ℕ)),
      pass_accum false (l, c, ts, ps) bs =
        (l + (bs.map fun b => b.loss * (b.size : ℚ)).sum,
         c + (bs.map BatchResult.size).sum,
         ts ++ bs.map BatchResult.labels,
         ps ++ bs.map BatchResult.preds) := by
  intro bs
  induction bs with
  | nil => intro l c ts ps; simp [pass_accum]
  | cons b rest ih =>
    intro l c ts ps
    simp [pass_accum, ih, add_assoc, List.append_assoc]

/-- Claim C4: a pass over a non-empty batch sequence returns the sum of
per-batch loss times batch size divided by the total sample count, and the
true/predicted label sequences are the in-order concatenations of the
per-batch label lists. -/
theorem c4_pass_weighted_mean_and_concat (bs : List BatchResult) (hbs : bs ≠ []) :
    run_pass false bs =
      ((bs.map fun b => b.loss * (b.size : ℚ)).sum
          / (((bs.map BatchResult.size).sum : ℕ) : ℚ),
       (bs.map BatchResult.labels).flatten,
       (bs.map BatchResult.preds).flatten) := by
  unfold run_pass
  rw [pass_accum_false_spec]
  simp

theorem c4_pass_weighted_mean_and_concat_witness :
    ([⟨2, 1, [0, 1], [1, 1]⟩] : List BatchResult) ≠ [] ∧
    run_pass false [⟨2, 1, [0, 1], [1, 1]⟩] =
      ((([⟨2, 1, [0, 1], [1, 1]⟩] : List BatchResult).map
            fun b => b.loss * (b.size : ℚ)).sum
          / ((((([⟨2, 1, [0, 1], [1, 1]⟩] : List BatchResult).map
            BatchResult.size).sum : ℕ)) : ℚ),
       (([⟨2, 1, [0, 1], [1, 1]⟩] : List BatchResult).map BatchResult.labels).flatten,
       (([⟨2, 1, [0, 1], [1, 1]⟩] : List BatchResult).map BatchResult.preds).flatten) :=
  ⟨by decide, c4_pass_weighted_mean_and_concat [⟨2, 1, [0, 1], [1, 1]⟩] (by decide)⟩

/-- Claim C3: with the dry-run flag set, a run with at least one epoch and
a non-empty training loader executes exactly one training batch, runs no
validation, saves nothing (in particular no best-model update), and the
epoch loop stops after that single batch: the whole run produces exactly
one epoch event `⟨1, false, false, false⟩` and the best state stays at the
sentinel. -/
theorem c3_dry_run_single_batch (inputs : ℕ → EpochInput) (epochs : ℕ)
    (he : 1 ≤ epochs) (hb : (inputs 0).trainBatches ≠ []) :
    train true epochs inputs = (⟨0, 0, 0⟩, [⟨1, false, false, false⟩]) := by
  obtain ⟨r, rfl⟩ : ∃ r, epochs = r + 1 := ⟨epochs - 1, by omega⟩
  unfold train train_loop epoch_body processed_batches
  simp [Nat.min_eq_left (List.length_pos.mpr hb)]

theorem c3_dry_run_single_batch_witness :
    1 ≤ 1 ∧
    ((fun _ => (⟨[⟨1, 0, [0], [0]⟩], [], 0, 0⟩ : EpochInput)) 0).trainBatches ≠ [] ∧
    train true 1 (fun _ => (⟨[⟨1, 0, [0], [0]⟩], [], 0, 0⟩ : EpochInput)) =
      (⟨0, 0, 0⟩, [⟨1, false, false, false⟩]) :=
  ⟨by decide, by decide,
    c3_dry_run_single_batch (fun _ => ⟨[⟨1, 0, [0], [0]⟩], [], 0, 0⟩) 1
      (by decide) (by decide)⟩

/-- Claim C5: when the dataset size is not a multiple of the batch size,
the training loader (`drop_last=True`) delivers exactly the full batches —
its samples are the first `bs * (n / bs)` ones, strictly fewer than `n`,
and every delivered batch is full — while the validation/test loaders
(`drop_last=False`) deliver every sample. -/
theorem c5_drop_last_contract {α : Type} (bs : ℕ) (hbs : 0 < bs) (xs : List α)
    (hnd : ¬ bs ∣ xs.length) :
    (batches bs true xs).flatten = xs.take (bs * (xs.length / bs))
    ∧ (batches bs true xs).flatten.length < xs.length
    ∧ (∀ l ∈ batches bs true xs, l.length = bs)
    ∧ (batches bs false xs).flatten = xs := by
  have hbs' : bs ≠ 0 := Nat.pos_iff_ne_zero.mp hbs
  have h1 : (batches bs true xs).flatten = xs.take (bs * (xs.length / bs)) := by
    show (chunks_dropLast bs xs).flatten = _
    exact chunks_dropLast_flatten bs hbs' xs
  refine ⟨h1, ?_, ?_, ?_⟩
  · rw [h1, List.length_take]
    have hle : bs * (xs.length / bs) ≤ xs.length := Nat.mul_div_le xs.length bs
    have hne : bs * (xs.length / bs) ≠ xs.length := by
      intro heq
      exact hnd ⟨xs.length / bs, heq.symm⟩
    rw [Nat.min_eq_left hle]
    exact Nat.lt_of_le_of_ne hle hne
  · intro l hl
    exact chunks_dropLast_sizes bs hbs' xs l hl
  · show (chunks bs xs).flatten = xs
    exact chunks_flatten bs hbs' xs

theorem c5_drop_last_contract_witness :
    (0 < 2 ∧ ¬ (2 ∣ ([0, 1, 2] : List ℕ).length)) ∧
    ((batches 2 true ([0, 1, 2] : List ℕ)).flatten
        = ([0, 1, 2] : List ℕ).take (2 * (([0, 1, 2] : List ℕ).length / 2))
      ∧ (batches 2 true ([0, 1, 2] : List ℕ)).flatten.length < ([0, 1, 2] : List ℕ).length
      ∧ (∀ l ∈ batches 2 true ([0, 1, 2] : List ℕ), l.length = 2)
      ∧ (batches 2 false ([0, 1, 2] : List ℕ)).flatten = [0, 1, 2]) :=
  ⟨⟨by decide, by decide⟩, c5_drop_last_contract 2 (by decide) [0, 1, 2] (by decide)⟩

/-! ## Unrolling the non-dry epoch loop -/

/-- The tail of the non-dry epoch loop from epoch `e` with `r` epochs left:
final best state and the events of those epochs. -/
def run_from (inputs : ℕ → EpochInput) : ℕ → ℕ → BestState → BestState × List EpochEvent
  | _, 0, best => (best, [])
  | e, r + 1, best =>
    ((run_from inputs (e + 1) r (epoch_body false (inputs e) best).1).1,
     (epoch_body false (inputs e) best).2.1 ::
       (run_from inputs (e + 1) r (epoch_body false (inputs e) best).1).2)

/-- Iterated best-state update from epoch `e` over `k` epochs. -/
def best_iter (inputs : ℕ → EpochInput) : ℕ → ℕ → BestState → BestState
  | _, 0, best => best
  | e, k + 1, best => best_iter inputs (e + 1) k (epoch_body false (inputs e) best).1

theorem run_from_succ (inputs : ℕ → EpochInput) (e r : ℕ) (best : BestState) :
    run_from inputs e (r + 1) best
      = ((run_from inputs (e + 1) r (epoch_body false (inputs e) best).1).1,
         (epoch_body false (inputs e) best).2.1 ::
           (run_from inputs (e + 1) r (epoch_body false (inputs e) best).1).2) := by
  rw [run_from]

theorem best_iter_succ_left (inputs : ℕ → EpochInput) (e k : ℕ) (best : BestState) :
    best_iter inputs e (k + 1) best
      = best_iter inputs (e + 1) k (epoch_body false (inputs e) best).1 := by
  rw [best_iter]

theorem epoch_body_false_fst (inp : EpochInput) (best : BestState) :
    (epoch_body false inp best).1 =
      if inp.val_avg_acc > best.avg_acc then
        BestState.mk (run_pass false inp.valBatches).1 inp.val_acc inp.val_avg_acc
      else best := by
  simp [epoch_body]

theorem epoch_body_false_event (inp : EpochInput) (best : BestState) :
    (epoch_body false inp best).2.1 =
      ⟨inp.trainBatches.length, true, true,
        decide (inp.val_avg_acc > best.avg_acc)⟩ := by
  simp [epoch_body, processed_batches]

theorem epoch_body_false_cont (inp : EpochInput) (best : BestState) :
    (epoch_body false inp best).2.2 = true := by
  simp [epoch_body]

theorem epoch_body_false_mono (inp : EpochInput) (best : BestState) :
    best.avg_acc ≤ (epoch_body false inp best).1.avg_acc := by
  rw [epoch_body_false_fst]
  by_cases h : inp.val_avg_acc > best.avg_acc
  · rw [if_pos h]
    exact le_of_lt h
  · rw [if_neg h]

theorem epoch_body_false_no_improve (inp : EpochInput) (best : BestState)
    (h : ¬ inp.val_avg_acc > best.avg_acc) :
    (epoch_body false inp best).1 = best := by
  rw [epoch_body_false_fst, if_neg h]

theorem train_loop_false_eq (inputs : ℕ → EpochInput) :
    ∀ (r e : ℕ) (best : BestState) (evs : List EpochEvent),
      train_loop false inputs e r best evs
        = ((run_from inputs e r best).1, evs ++ (run_from inputs e r best).2) := by
  intro r
  induction r with
  | zero => intro e best evs; simp [train_loop, run_from]
  | succ r ih =>
    intro e best evs
    rw [train_loop, run_from_succ]
    simp [epoch_body_false_cont, ih, List.append_assoc]

theorem run_from_fst (inputs : ℕ → EpochInput) :
    ∀ (r e : ℕ) (best : BestState),
      (run_from inputs e r best).1 = best_iter inputs e r best := by
  intro r
  induction r with
  | zero => intro e best; rfl
  | succ r ih => intro e best; rw [run_from, best_iter]; exact ih _ _

theorem run_from_length (inputs : ℕ → EpochInput) :
    ∀ (r e : ℕ) (best : BestState), (run_from inputs e r best).2.length = r := by
  intro r
  induction r with
  | zero => intro e best; rfl
  | succ r ih => intro e best; rw [run_from]; simp [ih]

theorem run_from_all_saved (inputs : ℕ → EpochInput) :
    ∀ (r e : ℕ) (best : BestState),
      ((run_from inputs e r best).2.all fun ev => ev.savedCheckpoint) = true := by
  intro r
  induction r with
  | zero => intro e best; rfl
  | succ r ih =>
    intro e best
    rw [run_from]
    simp only [List.all_cons, epoch_body_false_event, ih, Bool.and_true]

theorem run_from_get (inputs : ℕ → EpochInput) :
    ∀ (r k e : ℕ) (best : BestState), k < r →
      (run_from inputs e r best).2.get? k
        = some (epoch_body false (inputs (e + k)) (best_iter inputs e k best)).2.1 := by
  intro r
  induction r with
  | zero => intro k e best hk; exact absurd hk (Nat.not_lt_zero k)
  | succ r ih =>
    intro k e best hk
    cases k with
    | zero => rw [run_from_succ]; rfl
    | succ k =>
      rw [run_from_succ]
      show (run_from inputs (e + 1) r (epoch_body false (inputs e) best).1).2.get? k = _
      rw [ih k (e + 1) (epoch_body false (inputs e) best).1 (by omega),
        show e + 1 + k = e + (k + 1) from by omega,
        ← best_iter_succ_left inputs e k best]

theorem best_iter_succ_right (inputs : ℕ → EpochInput) :
    ∀ (k e : ℕ) (best : BestState),
      best_iter inputs e (k + 1) best
        = (epoch_body false (inputs (e + k)) (best_iter inputs e k best)).1 := by
  intro k
  induction k with
  | zero => intro e best; rfl
  | succ k ih =>
    intro e best
    rw [best_iter_succ_left inputs e (k + 1) best, ih (e + 1),
      best_iter_succ_left inputs e k best,
      show e + 1 + k = e + (k + 1) from by omega]

theorem bestAfter_eq_iter (inputs : ℕ → EpochInput) :
    ∀ e : ℕ, bestAfter inputs e = best_iter inputs 0 e ⟨0, 0, 0⟩ := by
  intro e
  induction e with
  | zero => rfl
  | succ e ih =>
    rw [bestAfter, ih, best_iter_succ_right inputs e 0 ⟨0, 0, 0⟩]
    simp

theorem bestAfter_succ (inputs : ℕ → EpochInput) (e : ℕ) :
    bestAfter inputs (e + 1) = (epoch_body false (inputs e) (bestAfter inputs e)).1 := by
  rw [bestAfter]

/-- Claim C1: starting from the all-zero sentinel, the best state (and the
best checkpoint) is overwritten in an epoch exactly when that epoch's
validation balanced accuracy strictly exceeds the stored best, so the
stored best balanced accuracy is non-decreasing and a tie never
overwrites. -/
theorem c1_best_monotone_strict_update (inputs : ℕ → EpochInput)
    (epochs e : ℕ) (he : e < epochs) :
    bestAfter inputs 0 = ⟨0, 0, 0⟩
    ∧ (train false epochs inputs).1 = bestAfter inputs epochs
    ∧ (train false epochs inputs).2.get? e
        = some ⟨(inputs e).trainBatches.length, true, true,
                decide ((inputs e).val_avg_acc > (bestAfter inputs e).avg_acc)⟩
    ∧ (bestAfter inputs e).avg_acc ≤ (bestAfter inputs (e + 1)).avg_acc
    ∧ (¬ (inputs e).val_avg_acc > (bestAfter inputs e).avg_acc →
        bestAfter inputs (e + 1) = bestAfter inputs e) := by
  refine ⟨rfl, ?_, ?_, ?_, ?_⟩
  · unfold train
    rw [train_loop_false_eq, run_from_fst, bestAfter_eq_iter]
  · unfold train
    rw [train_loop_false_eq]
    simp only [List.nil_append]
    rw [run_from_get inputs epochs e 0 ⟨0, 0, 0⟩ he, epoch_body_false_event,
      bestAfter_eq_iter]
    simp
  · rw [bestAfter_succ]
    exact epoch_body_false_mono _ _
  · intro h
    rw [bestAfter_succ]
    exact epoch_body_false_no_improve _ _ h

theorem c1_best_monotone_strict_update_witness :
    0 < 1
    ∧ (bestAfter (fun _ => (⟨[], [], 0, 0⟩ : EpochInput)) 0 = ⟨0, 0, 0⟩
      ∧ (train false 1 (fun _ => (⟨[], [], 0, 0⟩ : EpochInput))).1
          = bestAfter (fun _ => (⟨[], [], 0, 0⟩ : EpochInput)) 1
      ∧ (train false 1 (fun _ => (⟨[], [], 0, 0⟩ : EpochInput))).2.get? 0
          = some ⟨((fun _ => (⟨[], [], 0, 0⟩ : EpochInput)) 0).trainBatches.length,
                  true, true,
                  decide (((fun _ => (⟨[], [], 0, 0⟩ : EpochInput)) 0).val_avg_acc
                    > (bestAfter (fun _ => (⟨[], [], 0, 0⟩ : EpochInput)) 0).avg_acc)⟩
      ∧ (bestAfter (fun _ => (⟨[], [], 0, 0⟩ : EpochInput)) 0).avg_acc
          ≤ (bestAfter (fun _ => (⟨[], [], 0, 0⟩ : EpochInput)) 1).avg_acc
      ∧ (¬ ((fun _ => (⟨[], [], 0, 0⟩ : EpochInput)) 0).val_avg_acc
            > (bestAfter (fun _ => (⟨[], [], 0, 0⟩ : EpochInput)) 0).avg_acc →
          bestAfter (fun _ => (⟨[], [], 0, 0⟩ : EpochInput)) 1
            = bestAfter (fun _ => (⟨[], [], 0, 0⟩ : EpochInput)) 0)) :=
  ⟨by decide, c1_best_monotone_strict_update (fun _ => ⟨[], [], 0, 0⟩) 1 0 (by decide)⟩

/-- Claim C6: in a non-dry run the epoch loop emits one event per epoch and
every one of them saved the rolling checkpoint, regardless of metric
improvement. -/
theorem c6_checkpoint_saved_every_epoch (inputs : ℕ → EpochInput) (epochs : ℕ) :
    (train false epochs inputs).2.length = epochs
    ∧ ((train false epochs inputs).2.all fun ev => ev.savedCheckpoint) = true := by
  unfold train
  rw [train_loop_false_eq]
  simp [run_from_length, run_from_all_saved]

/-- Claim C9: in both call modes (explicit state override and default
best-slot weights) the evaluator returns the accuracy / balanced-accuracy
pair computed over the full test partition, and it emits the summary line
exactly when no override is supplied. -/
theorem c9_test_both_modes (α : Type) (state_dict : Option String)
    (tbs : ℕ) (htbs : tbs ≠ 0) (samples : List α) (label : α → ℕ)
    (predict : Option String → α → ℕ)
    (accuracy_score balanced_accuracy_score : List ℕ → List ℕ → ℚ) :
    (test state_dict tbs samples label predict
        accuracy_score balanced_accuracy_score).test_acc
      = accuracy_score (samples.map label) (samples.map (predict state_dict))
    ∧ (test state_dict tbs samples label predict
        accuracy_score balanced_accuracy_score).avg_per_class_acc
      = balanced_accuracy_score (samples.map label) (samples.map (predict state_dict))
    ∧ (test state_dict tbs samples label predict
        accuracy_score balanced_accuracy_score).logged = state_dict.isNone := by
  have hch : ∀ f : α → ℕ,
      ((chunks tbs samples).map (fun b => b.map f)).flatten = samples.map f := by
    intro f
    rw [← List.map_flatten, chunks_flatten tbs htbs]
  have hb : batches tbs false samples = chunks tbs samples := by
    simp [batches]
  refine ⟨?_, ?_, rfl⟩
  · show accuracy_score ((batches tbs false samples).map (fun b => b.map label)).flatten
      ((batches tbs false samples).map (fun b => b.map (predict state_dict))).flatten = _
    rw [hb, hch, hch]
  · show balanced_accuracy_score
      ((batches tbs false samples).map (fun b => b.map label)).flatten
      ((batches tbs false samples).map (fun b => b.map (predict state_dict))).flatten = _
    rw [hb, hch, hch]

theorem c9_test_both_modes_witness :
    (1 : ℕ) ≠ 0
    ∧ ((test (some "ckpt") 1 [5] (fun n => n) (fun _ _ => 0)
          (fun _ _ => 1) (fun _ _ => (1 : ℚ) / 2)).test_acc
        = (fun _ _ => (1 : ℚ)) (([5] : List ℕ).map (fun n => n))
            (([5] : List ℕ).map ((fun _ _ => 0) (some "ckpt")))
      ∧ (test (some "ckpt") 1 [5] (fun n => n) (fun _ _ => 0)
          (fun _ _ => 1) (fun _ _ => (1 : ℚ) / 2)).avg_per_class_acc
        = (fun _ _ => (1 : ℚ) / 2) (([5] : List ℕ).map (fun n => n))
            (([5] : List ℕ).map ((fun _ _ => 0) (some "ckpt")))
      ∧ (test (some "ckpt") 1 [5] (fun n => n) (fun _ _ => 0)
          (fun _ _ => 1) (fun _ _ => (1 : ℚ) / 2)).logged = (some "ckpt").isNone) :=
  ⟨by decide,
    c9_test_both_modes ℕ (some "ckpt") 1 (by decide) [5] (fun n => n)
      (fun _ _ => 0) (fun _ _ => 1) (fun _ _ => (1 : ℚ) / 2)⟩

end PAN
